import Mathlib

/-!
Verification of the `py_maze` maze generator and game.

The source program is a Python module with two classes:

* `MazeGenerator` builds a `(2*height+1) x (2*width+1)` boolean grid
  (`True` = wall, `False` = passable) by iterative recursive backtracking
  over the cells at odd coordinates, then carves an entrance at
  `grid[0][1]` and an exit at `grid[-1][-2]`.
* `MazeGame` wraps a grid, places the player by scanning column 1 from
  the top and the end cell by scanning column `width-2` from the bottom,
  moves the player with bounds/wall checks, detects the win condition
  and renders the grid as text.

The embedding below mirrors the Python code.  Grids are
`List (List Bool)`; Python's list indexing (including its negative-index
wrap-around, which the source uses for `grid[-1][-2]`) is modelled by
`pyIdx`/`pyGet`/`pySet`.  `random.choice` is modelled by an arbitrary
stream `rand : Nat → Nat` of which iteration `k` consumes the value
`rand k`; every theorem quantifies over all such streams.  The unbounded
`while stack:` loop runs on explicit fuel, and a separate theorem shows
the fuel bound `2*width*height` is never exhausted.
-/

set_option linter.unusedVariables false

/-- Effective index of Python list indexing: a negative index `i` refers
to position `len + i`.  (Out-of-range accesses are handled at each use
site: reads in the generator and game are guarded by bounds checks in the
source, writes out of range never occur, and `MazeGame.__init__`, where an
out-of-range read is reachable, uses the checked variant below.) -/
def pyIdx (len : ℕ) (i : ℤ) : ℕ :=
  (if i < 0 then (len : ℤ) + i else i).toNat

/-- The row `g[y]` of a grid, Python indexing, defaulting to `[]`. -/
def pyRow (g : List (List Bool)) (y : ℤ) : List Bool :=
  g.getD (pyIdx g.length y) []

/-- The entry `g[y][x]` of a grid, Python indexing, defaulting to `true`
(a wall) out of range. -/
def pyGet (g : List (List Bool)) (x y : ℤ) : Bool :=
  (pyRow g y).getD (pyIdx (pyRow g y).length x) true

/-- The assignment `g[y][x] = b`, Python indexing; out-of-range
assignments (which never occur in the modelled code) leave the grid
unchanged. -/
def pySet (g : List (List Bool)) (x y : ℤ) (b : Bool) : List (List Bool) :=
  g.set (pyIdx g.length y)
    ((g.getD (pyIdx g.length y) []).set
      (pyIdx (g.getD (pyIdx g.length y) []).length x) b)

namespace MazeGenerator

/-- `self.grid = [[True for _ in range(width*2+1)] for _ in range(height*2+1)]`. -/
def initGrid (width height : ℕ) : List (List Bool) :=
  List.replicate (height * 2 + 1) (List.replicate (width * 2 + 1) true)

/-- The direction list `[(0, -2), (2, 0), (0, 2), (-2, 0)]` (up, right, down, left). -/
def dirs : List (ℤ × ℤ) := [(0, -2), (2, 0), (0, 2), (-2, 0)]

/-- The loop state of `generate`: the grid, the backtracking stack and the
visited set.  The head of `stack` is the top (`stack[-1]` in Python). -/
structure GenState where
  grid : List (List Bool)
  stack : List (ℤ × ℤ)
  visited : Finset (ℤ × ℤ)

/-- The neighbour scan of `generate`: entries `(nx, ny, dx, dy)` for the
unvisited cells two steps away satisfying
`0 < nx < len(self.grid[0]) and 0 < ny < len(self.grid)`. -/
def neighborsOf (grid : List (List Bool)) (visited : Finset (ℤ × ℤ)) (cx cy : ℤ) :
    List (ℤ × ℤ × ℤ × ℤ) :=
  dirs.filterMap fun d =>
    if 0 < cx + d.1 ∧ cx + d.1 < ((grid.getD 0 []).length : ℤ) ∧
        0 < cy + d.2 ∧ cy + d.2 < (grid.length : ℤ) ∧ (cx + d.1, cy + d.2) ∉ visited
    then some (cx + d.1, cy + d.2, d.1, d.2) else none

/-- One iteration of the `while stack:` loop of `generate`.  If there are
unvisited neighbours, `random.choice` (modelled by the index
`rand k % len(neighbors)`) picks one; the wall halfway to it and the
neighbour itself are carved, and the neighbour is marked visited and
pushed; otherwise the stack is popped. -/
def genStep (rand : ℕ → ℕ) (k : ℕ) (st : GenState) : GenState :=
  match st.stack with
  | [] => st
  | (cx, cy) :: rest =>
    let nbrs := neighborsOf st.grid st.visited cx cy
    if nbrs = [] then { st with stack := rest }
    else
      let t := nbrs.getD (rand k % nbrs.length) (0, 0, 0, 0)
      let wall_x := cx + t.2.2.1 / 2
      let wall_y := cy + t.2.2.2 / 2
      { grid := pySet (pySet st.grid wall_x wall_y false) t.1 t.2.1 false,
        stack := (t.1, t.2.1) :: st.stack,
        visited := insert (t.1, t.2.1) st.visited }

/-- The `while stack:` loop on explicit fuel; `none` means the fuel ran
out before the stack emptied (shown never to happen for the fuel used by
`generate`). -/
def genLoop (rand : ℕ → ℕ) : ℕ → ℕ → GenState → Option GenState
  | 0, _, st => if st.stack = [] then some st else none
  | fuel + 1, k, st =>
    if st.stack = [] then some st
    else genLoop rand fuel (k + 1) (genStep rand k st)

/-- `MazeGenerator(width, height).generate()`: carve the start cell
`grid[1][1]`, run the backtracking loop, then carve the entrance
`grid[0][1]` and the exit `grid[-1][-2]`. -/
def generate (width height : ℕ) (rand : ℕ → ℕ) : Option (List (List Bool)) :=
  let grid0 := pySet (initGrid width height) 1 1 false
  match genLoop rand (2 * width * height) 0 ⟨grid0, [(1, 1)], {(1, 1)}⟩ with
  | none => none
  | some st => some (pySet (pySet st.grid 1 0 false) (-2) (-1) false)

end MazeGenerator

/-- The state of `MazeGame`: the (copied) grid, the dimensions
`height = len(maze)` and `width = len(maze[0])`, the player position and
the end position. -/
structure MazeGame where
  maze : List (List Bool)
  height : ℕ
  width : ℕ
  player_x : ℤ
  player_y : ℤ
  end_x : ℤ
  end_y : ℤ
  deriving DecidableEq

namespace MazeGame

/-- A checked read `maze[y][x]`: `none` models the `IndexError` Python
raises when the (possibly negative) index is out of range. -/
def pyGetChecked (maze : List (List Bool)) (x : ℤ) (y : ℕ) : Option Bool :=
  if y < maze.length then
    let row := maze.getD y []
    if -(row.length : ℤ) ≤ x ∧ x < (row.length : ℤ)
    then some (row.getD (pyIdx row.length x) true)
    else none
  else none

/-- The scan loops of `MazeGame.__init__`: walk the row indices `ys` at
fixed column `x`; `some (some y)` is a `break` at the first passable row,
`some none` a completed loop with no hit, `none` an `IndexError`. -/
def scanFirst (maze : List (List Bool)) (x : ℤ) : List ℕ → Option (Option ℕ)
  | [] => some none
  | y :: ys =>
    match pyGetChecked maze x y with
    | none => none
    | some b => if b then scanFirst maze x ys else some (some y)

/-- `MazeGame(maze_grid)`: copy the grid, derive `height`/`width`, scan
column 1 top-to-bottom for the player start (default row 0) and column
`width-2` bottom-to-top for the end (default row `height-1`).  `none`
models the `IndexError` raised on an empty grid (`len(maze[0])`) or by a
scan read on a too-narrow grid. -/
def init (maze_grid : List (List Bool)) : Option MazeGame :=
  if maze_grid.length = 0 then none
  else
    let maze := maze_grid
    let height := maze.length
    let width := (maze.getD 0 []).length
    match scanFirst maze 1 (List.range height) with
    | none => none
    | some s =>
      match scanFirst maze ((width : ℤ) - 2) (List.range height).reverse with
      | none => none
      | some e =>
        some { maze := maze, height := height, width := width,
               player_x := 1, player_y := ((s.getD 0 : ℕ) : ℤ),
               end_x := (width : ℤ) - 2, end_y := ((e.getD (height - 1) : ℕ) : ℤ) }

/-- `MazeGame.move_player(dx, dy)`: move to `(x+dx, y+dy)` and return
`True` when the candidate is in bounds and not a wall, else leave the
state unchanged and return `False`. -/
def move_player (gs : MazeGame) (dx dy : ℤ) : MazeGame × Bool :=
  let new_x := gs.player_x + dx
  let new_y := gs.player_y + dy
  if 0 ≤ new_x ∧ new_x < (gs.width : ℤ) ∧ 0 ≤ new_y ∧ new_y < (gs.height : ℤ) ∧
      pyGet gs.maze new_x new_y = false
  then ({ gs with player_x := new_x, player_y := new_y }, true)
  else (gs, false)

/-- `MazeGame.check_win()`: `self.player_x == self.end_x and self.player_y == self.end_y`. -/
def check_win (gs : MazeGame) : Bool :=
  gs.player_x == gs.end_x && gs.player_y == gs.end_y

/-- The maze block printed by `MazeGame.render()`: one line per row,
`'o'` at the player position, `'*'` for walls, `' '` for passages.
(The surrounding screen clear and caption prints are terminal I/O with
no further content.) -/
def renderLines (gs : MazeGame) : List String :=
  (List.range gs.height).map fun (y : ℕ) =>
    String.mk ((List.range gs.width).map fun (x : ℕ) =>
      if (x : ℤ) = gs.player_x ∧ (y : ℤ) = gs.player_y then 'o'
      else if pyGet gs.maze (x : ℤ) (y : ℤ) then '*' else ' ')

/-- The maze block of `MazeGame.render()` as a single text block, rows
top-to-bottom joined by newline. -/
def render (gs : MazeGame) : String :=
  String.intercalate "\n" (renderLines gs)

end MazeGame

/-- Heap model for the grid copy `self.maze = [row[:] for row in maze_grid]`
of `MazeGame.__init__`: rows live in a store (address = list position) and
a grid value is a list of row addresses, so aliasing between the
generator's grid and the game's grid is observable.  `readGrid` reads the
rows a grid refers to. -/
def readGrid (store : List (List Bool)) (ptrs : List ℕ) : List (List Bool) :=
  ptrs.map fun p => store.getD p []

/-- The copy `[row[:] for row in maze_grid]` in the heap model: each row
is duplicated into a fresh address and the new grid refers to the fresh
addresses. -/
def copyRows (store : List (List Bool)) : List ℕ → List (List Bool) × List ℕ
  | [] => (store, [])
  | p :: ps =>
    let store1 := store ++ [store.getD p []]
    let r := copyRows store1 ps
    (r.1, store.length :: r.2)

/-- One king-free grid step: `c` is one grid position up, down, left or
right of `b`. -/
def AdjStep (b c : ℤ × ℤ) : Prop :=
  (c.1 = b.1 ∧ (c.2 = b.2 + 1 ∨ c.2 = b.2 - 1)) ∨
  (c.2 = b.2 ∧ (c.1 = b.1 + 1 ∨ c.1 = b.1 - 1))

/-- Reachability inside a grid along single axis steps through passable
positions (both endpoints included). -/
inductive Reach (g : List (List Bool)) : ℤ × ℤ → ℤ × ℤ → Prop
  | refl (p : ℤ × ℤ) : pyGet g p.1 p.2 = false → Reach g p p
  | step (a b c : ℤ × ℤ) : Reach g a b → AdjStep b c → pyGet g c.1 c.2 = false → Reach g a c

/-- A logical maze cell of a `width x height` maze: odd coordinates
strictly inside the `(2*width+1) x (2*height+1)` grid. -/
def IsCell (w h : ℕ) (p : ℤ × ℤ) : Prop :=
  p.1 % 2 = 1 ∧ p.2 % 2 = 1 ∧ 0 < p.1 ∧ p.1 < w * 2 + 1 ∧ 0 < p.2 ∧ p.2 < h * 2 + 1

/-- Cell adjacency used by the generator: `q` is exactly two grid steps
from `p` in one axis direction and strictly inside the grid bounds. -/
def CellAdj (w h : ℕ) (p q : ℤ × ℤ) : Prop :=
  (q = (p.1, p.2 - 2) ∨ q = (p.1 + 2, p.2) ∨ q = (p.1, p.2 + 2) ∨ q = (p.1 - 2, p.2)) ∧
  0 < q.1 ∧ q.1 < w * 2 + 1 ∧ 0 < q.2 ∧ q.2 < h * 2 + 1

/-- The finite set of all logical cells of a `width x height` maze. -/
def cellSet (w h : ℕ) : Finset (ℤ × ℤ) :=
  (Finset.range w ×ˢ Finset.range h).image fun ij =>
    ((ij.1 : ℤ) * 2 + 1, (ij.2 : ℤ) * 2 + 1)

/-- The invariant of the backtracking loop of `MazeGenerator.generate`. -/
structure GenInv (w h : ℕ) (st : MazeGenerator.GenState) : Prop where
  rowsLen : st.grid.length = h * 2 + 1
  colsLen : ∀ j, j < h * 2 + 1 → (st.grid.getD j []).length = w * 2 + 1
  visCell : ∀ p ∈ st.visited, IsCell w h p
  stackVis : ∀ p ∈ st.stack, p ∈ st.visited
  startVis : ((1 : ℤ), (1 : ℤ)) ∈ st.visited
  visPass : ∀ p ∈ st.visited, pyGet st.grid p.1 p.2 = false
  visReach : ∀ p ∈ st.visited, Reach st.grid (1, 1) p
  closedOff : ∀ p ∈ st.visited, p ∉ st.stack → ∀ q, CellAdj w h p q → q ∈ st.visited
  passInt : ∀ x y : ℤ, 0 ≤ x → 0 ≤ y → pyGet st.grid x y = false →
    0 < x ∧ x < w * 2 ∧ 0 < y ∧ y < h * 2 ∧ (x % 2 = 1 ∨ y % 2 = 1)

/-- Termination measure of the backtracking loop: twice the number of
still-unvisited cells plus the stack height.  Every iteration strictly
decreases it. -/
def genMeasure (w h : ℕ) (st : MazeGenerator.GenState) : ℕ :=
  2 * ((cellSet w h) \ st.visited).card + st.stack.length

/-- The (unique) grid generated for `width = height = 1`, used to
instantiate universally quantified theorems at a concrete input. -/
def demoGrid : List (List Bool) :=
  [[true, false, true], [true, false, true], [true, false, true]]

/-- The game built on `demoGrid`, used to instantiate universally
quantified theorems at a concrete input. -/
def demoGame : MazeGame :=
  { maze := demoGrid, height := 3, width := 3,
    player_x := 1, player_y := 0, end_x := 1, end_y := 2 }

/-! ### Basic lemmas about Python-style list access -/

theorem getD_set_if {α : Type} (l : List α) (i j : ℕ) (a d : α) :
    (l.set i a).getD j d = if i = j ∧ j < l.length then a else l.getD j d := by
  induction l generalizing i j with
  | nil => simp
  | cons hd tl ih =>
    cases i with
    | zero =>
      cases j with
      | zero => simp
      | succ j => simp
    | succ i =>
      cases j with
      | zero => simp
      | succ j =>
        show (tl.set i a).getD j d =
          if i + 1 = j + 1 ∧ j + 1 < (hd :: tl).length then a else tl.getD j d
        rw [ih i j]
        by_cases hc : i = j ∧ j < tl.length
        · rw [if_pos hc, if_pos (show i + 1 = j + 1 ∧ j + 1 < (hd :: tl).length by
            simp only [List.length_cons]; omega)]
        · rw [if_neg hc, if_neg (show ¬(i + 1 = j + 1 ∧ j + 1 < (hd :: tl).length) by
            simp only [List.length_cons]; omega)]

theorem getD_replicate {α : Type} (n : ℕ) (a d : α) (j : ℕ) :
    (List.replicate n a).getD j d = if j < n then a else d := by
  induction n generalizing j with
  | zero => simp
  | succ n ih =>
    cases j with
    | zero => simp
    | succ j =>
      show (List.replicate n a).getD j d = if j + 1 < n + 1 then a else d
      rw [ih j]
      by_cases hc : j < n
      · rw [if_pos hc, if_pos (by omega)]
      · rw [if_neg hc, if_neg (by omega)]

theorem pyIdx_nonneg (len : ℕ) (i : ℤ) (hi : 0 ≤ i) : pyIdx len i = i.toNat := by
  unfold pyIdx
  rw [if_neg (by omega)]

theorem length_pySet (g : List (List Bool)) (x y : ℤ) (b : Bool) :
    (pySet g x y b).length = g.length := by
  simp [pySet]

theorem getD_length_pySet (g : List (List Bool)) (x y : ℤ) (b : Bool) (j : ℕ) :
    ((pySet g x y b).getD j []).length = (g.getD j []).length := by
  unfold pySet
  rw [getD_set_if]
  split
  · next hc => rw [List.length_set, hc.1]
  · rfl

theorem pyRow_pySet (g : List (List Bool)) (u v : ℤ) (b : Bool) (y : ℤ) :
    pyRow (pySet g u v b) y =
      if pyIdx g.length v = pyIdx g.length y ∧ pyIdx g.length v < g.length
      then (g.getD (pyIdx g.length v) []).set
        (pyIdx (g.getD (pyIdx g.length v) []).length u) b
      else pyRow g y := by
  unfold pyRow pySet
  rw [List.length_set, getD_set_if]
  by_cases hc : pyIdx g.length v = pyIdx g.length y ∧ pyIdx g.length y < g.length
  · rw [if_pos hc, if_pos ⟨hc.1, by omega⟩]
  · rw [if_neg hc, if_neg (fun hh => hc ⟨hh.1, by omega⟩)]

theorem pyGet_pySet (g : List (List Bool)) (u v x y : ℤ) (b : Bool) :
    pyGet (pySet g u v b) x y =
      if pyIdx g.length v = pyIdx g.length y ∧ pyIdx g.length v < g.length ∧
          pyIdx (g.getD (pyIdx g.length v) []).length u =
            pyIdx (g.getD (pyIdx g.length v) []).length x ∧
          pyIdx (g.getD (pyIdx g.length v) []).length u <
            (g.getD (pyIdx g.length v) []).length
      then b else pyGet g x y := by
  show (pyRow (pySet g u v b) y).getD (pyIdx (pyRow (pySet g u v b) y).length x) true = _
  rw [pyRow_pySet]
  by_cases h1 : pyIdx g.length v = pyIdx g.length y ∧ pyIdx g.length v < g.length
  · rw [if_pos h1]
    have hrow : pyRow g y = g.getD (pyIdx g.length v) [] := by
      unfold pyRow; rw [h1.1]
    rw [List.length_set, getD_set_if]
    by_cases h2 : pyIdx (g.getD (pyIdx g.length v) []).length u =
        pyIdx (g.getD (pyIdx g.length v) []).length x ∧
        pyIdx (g.getD (pyIdx g.length v) []).length x <
          (g.getD (pyIdx g.length v) []).length
    · rw [if_pos h2, if_pos ⟨h1.1, h1.2, h2.1, by omega⟩]
    · rw [if_neg h2, if_neg (fun hb => h2 ⟨hb.2.2.1, by
        have := hb.2.2.1
        have := hb.2.2.2
        omega⟩)]
      unfold pyGet
      rw [hrow]
  · rw [if_neg h1, if_neg (fun hb => h1 ⟨hb.1, hb.2.1⟩)]
    rfl

theorem pyGet_pySet_same (g : List (List Bool)) (x y : ℤ) (b : Bool)
    (hx : 0 ≤ x) (hy : 0 ≤ y) (hyL : y.toNat < g.length)
    (hxL : x.toNat < (g.getD y.toNat []).length) :
    pyGet (pySet g x y b) x y = b := by
  rw [pyGet_pySet]
  simp only [pyIdx_nonneg _ _ hx, pyIdx_nonneg _ _ hy]
  rw [if_pos ⟨trivial, hyL, trivial, hxL⟩]

theorem pyGet_pySet_ne (g : List (List Bool)) (u v x y : ℤ) (b : Bool)
    (hu : 0 ≤ u) (hv : 0 ≤ v) (hx : 0 ≤ x) (hy : 0 ≤ y)
    (hne : u ≠ x ∨ v ≠ y) :
    pyGet (pySet g u v b) x y = pyGet g x y := by
  rw [pyGet_pySet]
  simp only [pyIdx_nonneg _ _ hu, pyIdx_nonneg _ _ hv, pyIdx_nonneg _ _ hx,
    pyIdx_nonneg _ _ hy]
  rw [if_neg]
  intro hb
  obtain ⟨h1, h2, h3, h4⟩ := hb
  rcases hne with h | h <;> omega

theorem pyGet_pySet_false (g : List (List Bool)) (u v x y : ℤ)
    (hxy : pyGet g x y = false) :
    pyGet (pySet g u v false) x y = false := by
  rw [pyGet_pySet]
  split
  · rfl
  · exact hxy

theorem pyGet_initGrid (w h : ℕ) (x y : ℤ) :
    pyGet (MazeGenerator.initGrid w h) x y = true := by
  unfold pyGet pyRow MazeGenerator.initGrid
  rw [getD_replicate]
  split
  · rw [getD_replicate]
    split <;> rfl
  · simp

theorem forall_mem_of_forall_getD {α : Type} (l : List α) (d : α) (P : α → Prop)
    (hP : ∀ j, j < l.length → P (l.getD j d)) : ∀ a ∈ l, P a := by
  induction l with
  | nil => simp
  | cons hd tl ih =>
    intro a ha
    rw [List.mem_cons] at ha
    rcases ha with rfl | ha
    · exact hP 0 (by simp)
    · exact ih (fun j hj => hP (j + 1) (by simp only [List.length_cons]; omega)) a ha

/-! ### Lemmas for list append and map used by the heap model and rendering -/

theorem getD_append_left {α : Type} (l t : List α) (i : ℕ) (d : α) (h : i < l.length) :
    (l ++ t).getD i d = l.getD i d := by
  induction l generalizing i with
  | nil => simp at h
  | cons hd tl ih =>
    cases i with
    | zero => rfl
    | succ i => exact ih i (by simp only [List.length_cons] at h; omega)

theorem getD_append_at {α : Type} (l : List α) (r d : α) :
    (l ++ [r]).getD l.length d = r := by
  induction l with
  | nil => rfl
  | cons hd tl ih => exact ih

theorem getD_map_range {α : Type} (f : ℕ → α) (n y : ℕ) (d : α) (hy : y < n) :
    ((List.range n).map f).getD y d = f y := by
  induction n with
  | zero => omega
  | succ n ih =>
    rw [List.range_succ, List.map_append]
    rcases Nat.lt_or_ge y n with hlt | hge
    · rw [getD_append_left _ _ _ _ (by simpa using hlt)]
      exact ih hlt
    · have hyn : y = n := by omega
      subst hyn
      rw [List.map_singleton]
      have h2 := getD_append_at (List.map f (List.range y)) (f y) d
      simp only [List.length_map, List.length_range] at h2
      exact h2

/-! ### Claim C2: move_player updates exactly on in-bounds passable targets -/

/-- Claim C2: for each of the four unit directions, `move_player dx dy`
returns `True` exactly when the candidate `(x+dx, y+dy)` is inside
`[0, width) x [0, height)` and the grid there is passable; in that case
the player moves there and nothing else changes, and otherwise the whole
state is unchanged and `False` is returned (no exception: for a
well-formed rectangular game state every access is in range). -/
theorem move_player_spec (gs : MazeGame) (dx dy : ℤ)
    (hd : (dx, dy) ∈ [((0 : ℤ), (-1 : ℤ)), (0, 1), (-1, 0), (1, 0)])
    (hh : gs.height = gs.maze.length)
    (hw : ∀ r ∈ gs.maze, r.length = gs.width) :
    ((gs.move_player dx dy).2 = true ↔
      (0 ≤ gs.player_x + dx ∧ gs.player_x + dx < (gs.width : ℤ) ∧
       0 ≤ gs.player_y + dy ∧ gs.player_y + dy < (gs.height : ℤ) ∧
       pyGet gs.maze (gs.player_x + dx) (gs.player_y + dy) = false)) ∧
    ((gs.move_player dx dy).2 = true →
      (gs.move_player dx dy).1 =
        { gs with player_x := gs.player_x + dx, player_y := gs.player_y + dy }) ∧
    ((gs.move_player dx dy).2 = false → (gs.move_player dx dy).1 = gs) := by
  simp only [MazeGame.move_player]
  split
  · next hcond =>
    exact ⟨iff_of_true rfl hcond, fun _ => rfl, fun hf => Bool.noConfusion hf⟩
  · next hcond =>
    exact ⟨iff_of_false (fun hf => Bool.noConfusion hf) hcond,
      fun ht => Bool.noConfusion ht, fun _ => rfl⟩

/-- Instantiation of `move_player_spec`: moving down from the entrance of
the demo maze succeeds. -/
theorem move_player_spec_witness :
    ((demoGame.move_player 0 1).2 = true ↔
      (0 ≤ demoGame.player_x + 0 ∧ demoGame.player_x + 0 < (demoGame.width : ℤ) ∧
       0 ≤ demoGame.player_y + 1 ∧ demoGame.player_y + 1 < (demoGame.height : ℤ) ∧
       pyGet demoGame.maze (demoGame.player_x + 0) (demoGame.player_y + 1) = false)) ∧
    ((demoGame.move_player 0 1).2 = true →
      (demoGame.move_player 0 1).1 =
        { demoGame with player_x := demoGame.player_x + 0,
                        player_y := demoGame.player_y + 1 }) ∧
    ((demoGame.move_player 0 1).2 = false → (demoGame.move_player 0 1).1 = demoGame) :=
  move_player_spec demoGame 0 1 (by decide) (by decide) (by decide)

/-! ### Claim C5: check_win is true exactly at the end position -/

/-- Claim C5: `check_win` returns `True` iff the player position equals
the end position, it mutates nothing (it is a pure function of the
state), and the end position it compares against is the one computed at
construction: no `move_player` call ever changes `end_x`/`end_y`. -/
theorem check_win_spec (gs : MazeGame) :
    (gs.check_win = true ↔ gs.player_x = gs.end_x ∧ gs.player_y = gs.end_y) ∧
    (∀ dx dy : ℤ, (gs.move_player dx dy).1.end_x = gs.end_x ∧
      (gs.move_player dx dy).1.end_y = gs.end_y) := by
  constructor
  · simp [MazeGame.check_win, Bool.and_eq_true, beq_iff_eq]
  · intro dx dy
    simp only [MazeGame.move_player]
    split
    · exact ⟨rfl, rfl⟩
    · exact ⟨rfl, rfl⟩

/-! ### Claim C7: the game owns a private copy of the grid -/

theorem readGrid_congr (s1 s2 : List (List Bool)) (ps : List ℕ)
    (h : ∀ p ∈ ps, s1.getD p [] = s2.getD p []) : readGrid s1 ps = readGrid s2 ps := by
  induction ps with
  | nil => rfl
  | cons p ps ih =>
    show s1.getD p [] :: readGrid s1 ps = s2.getD p [] :: readGrid s2 ps
    rw [h p (by simp), ih (fun q hq => h q (by simp [hq]))]

theorem copyRows_store_ext (store : List (List Bool)) (ps : List ℕ) :
    ∃ ext, (copyRows store ps).1 = store ++ ext := by
  induction ps generalizing store with
  | nil => exact ⟨[], by simp [copyRows]⟩
  | cons p ps ih =>
    obtain ⟨ext, hext⟩ := ih (store ++ [store.getD p []])
    refine ⟨store.getD p [] :: ext, ?_⟩
    simp only [copyRows, hext, List.append_assoc, List.singleton_append]

theorem copyRows_ptrs_ge (store : List (List Bool)) (ps : List ℕ) :
    ∀ q ∈ (copyRows store ps).2, store.length ≤ q := by
  induction ps generalizing store with
  | nil => simp [copyRows]
  | cons p ps ih =>
    intro q hq
    simp only [copyRows] at hq
    rcases List.mem_cons.mp hq with rfl | hq
    · exact Nat.le_refl _
    · have := ih (store ++ [store.getD p []]) q hq
      simp only [List.length_append, List.length_singleton] at this
      omega

theorem copyRows_read (store : List (List Bool)) (ps : List ℕ)
    (hv : ∀ p ∈ ps, p < store.length) :
    readGrid (copyRows store ps).1 (copyRows store ps).2 = readGrid store ps := by
  induction ps generalizing store with
  | nil => rfl
  | cons p ps ih =>
    have hv1 : ∀ q ∈ ps, q < (store ++ [store.getD p []]).length := by
      intro q hq
      have := hv q (by simp [hq])
      simp only [List.length_append, List.length_singleton]
      omega
    have hc1 : (copyRows store (p :: ps)).1 =
        (copyRows (store ++ [store.getD p []]) ps).1 := rfl
    have hc2 : (copyRows store (p :: ps)).2 =
        store.length :: (copyRows (store ++ [store.getD p []]) ps).2 := rfl
    have hrg : ∀ (s : List (List Bool)) (a : ℕ) (l : List ℕ),
        readGrid s (a :: l) = s.getD a [] :: readGrid s l := fun s a l => rfl
    rw [hc1, hc2, hrg, hrg]
    obtain ⟨ext, hext⟩ := copyRows_store_ext (store ++ [store.getD p []]) ps
    have hhead : (copyRows (store ++ [store.getD p []]) ps).1.getD store.length [] =
        store.getD p [] := by
      rw [hext, getD_append_left (store ++ [store.getD p []]) ext store.length []
        (by simp only [List.length_append, List.length_singleton]; omega),
        getD_append_at]
    have htail : readGrid (copyRows (store ++ [store.getD p []]) ps).1
        (copyRows (store ++ [store.getD p []]) ps).2 = readGrid store ps := by
      rw [ih _ hv1]
      exact readGrid_congr _ _ ps (fun q hq =>
        getD_append_left store [store.getD p []] q [] (hv q (by simp [hq])))
    rw [hhead, htail]

/-- Claim C7: in the heap model of `self.maze = [row[:] for row in maze_grid]`,
the copied grid has the same contents as the original, refers only to
fresh row addresses, and is independent of the original: writing any row
of the copy leaves every row seen through the original grid unchanged,
and writing any row of the original leaves every row seen through the
copy unchanged. -/
theorem copy_independent (store : List (List Bool)) (ptrs : List ℕ)
    (hv : ∀ p ∈ ptrs, p < store.length) :
    (readGrid (copyRows store ptrs).1 (copyRows store ptrs).2 = readGrid store ptrs) ∧
    (∀ q ∈ (copyRows store ptrs).2, store.length ≤ q) ∧
    (∀ q ∈ (copyRows store ptrs).2, ∀ r : List Bool,
      readGrid ((copyRows store ptrs).1.set q r) ptrs = readGrid store ptrs) ∧
    (∀ p ∈ ptrs, ∀ r : List Bool,
      readGrid ((copyRows store ptrs).1.set p r) (copyRows store ptrs).2 =
        readGrid (copyRows store ptrs).1 (copyRows store ptrs).2) := by
  obtain ⟨ext, hext⟩ := copyRows_store_ext store ptrs
  refine ⟨copyRows_read store ptrs hv, copyRows_ptrs_ge store ptrs, ?_, ?_⟩
  · intro q hq r
    have hqge := copyRows_ptrs_ge store ptrs q hq
    have h1 : readGrid ((copyRows store ptrs).1.set q r) ptrs =
        readGrid (copyRows store ptrs).1 ptrs := by
      refine readGrid_congr _ _ ptrs (fun p hp => ?_)
      rw [getD_set_if]
      rw [if_neg]
      intro hc
      have := hv p hp
      omega
    rw [h1, hext]
    exact readGrid_congr _ _ ptrs (fun p hp =>
      getD_append_left store ext p [] (hv p hp))
  · intro p hp r
    refine readGrid_congr _ _ _ (fun q hq => ?_)
    have hqge := copyRows_ptrs_ge store ptrs q hq
    have := hv p hp
    rw [getD_set_if]
    rw [if_neg]
    intro hc
    omega

/-- Instantiation of `copy_independent` on a two-row store. -/
theorem copy_independent_witness :
    (readGrid (copyRows [[true], [false]] [0, 1]).1 (copyRows [[true], [false]] [0, 1]).2 =
      readGrid [[true], [false]] [0, 1]) ∧
    (∀ q ∈ (copyRows [[true], [false]] [0, 1]).2, ([[true], [false]] : List (List Bool)).length ≤ q) ∧
    (∀ q ∈ (copyRows [[true], [false]] [0, 1]).2, ∀ r : List Bool,
      readGrid ((copyRows [[true], [false]] [0, 1]).1.set q r) [0, 1] =
        readGrid [[true], [false]] [0, 1]) ∧
    (∀ p ∈ ([0, 1] : List ℕ), ∀ r : List Bool,
      readGrid ((copyRows [[true], [false]] [0, 1]).1.set p r) (copyRows [[true], [false]] [0, 1]).2 =
        readGrid (copyRows [[true], [false]] [0, 1]).1 (copyRows [[true], [false]] [0, 1]).2) :=
  copy_independent [[true], [false]] [0, 1] (by decide)

/-! ### Claim C8: rendering is a pure projection of grid and player position -/

/-- Claim C8: the rendered maze block has one line per row and one
character per column, showing the player glyph at exactly the player's
coordinate, the wall glyph where the grid holds `true` and the space
glyph where it holds `false`; lines are joined by newline top-to-bottom;
and for two (well-formed) game states with equal grids and equal player
positions the rendered text is identical — rendering reads nothing else
and mutates nothing. -/
theorem render_spec (gs gs' : MazeGame)
    (hh : gs.height = gs.maze.length) (hw : gs.width = (gs.maze.getD 0 []).length)
    (hh' : gs'.height = gs'.maze.length) (hw' : gs'.width = (gs'.maze.getD 0 []).length) :
    (gs.renderLines.length = gs.height) ∧
    (∀ y, y < gs.height → (gs.renderLines.getD y "").length = gs.width) ∧
    (∀ y x, y < gs.height → x < gs.width →
      (gs.renderLines.getD y "").toList.getD x ' ' =
        (if (x : ℤ) = gs.player_x ∧ (y : ℤ) = gs.player_y then 'o'
         else if pyGet gs.maze (x : ℤ) (y : ℤ) then '*' else ' ')) ∧
    (gs.render = String.intercalate "\n" gs.renderLines) ∧
    (gs.maze = gs'.maze → gs.player_x = gs'.player_x → gs.player_y = gs'.player_y →
      gs.render = gs'.render) := by
  refine ⟨?_, ?_, ?_, rfl, ?_⟩
  · simp only [MazeGame.renderLines, List.length_map, List.length_range]
  · intro y hy
    unfold MazeGame.renderLines
    rw [getD_map_range _ _ _ _ hy]
    show ((List.range gs.width).map _).length = gs.width
    simp
  · intro y x hy hx
    unfold MazeGame.renderLines
    rw [getD_map_range _ _ _ _ hy]
    show ((List.range gs.width).map _).getD x ' ' = _
    rw [getD_map_range _ _ _ _ hx]
  · intro hm hpx hpy
    have hH : gs.height = gs'.height := by rw [hh, hh', hm]
    have hW : gs.width = gs'.width := by rw [hw, hw', hm]
    unfold MazeGame.render MazeGame.renderLines
    rw [hm, hpx, hpy, hH, hW]

/-- Instantiation of `render_spec` at the demo game. -/
theorem render_spec_witness :
    (demoGame.renderLines.length = demoGame.height) ∧
    (∀ y, y < demoGame.height → (demoGame.renderLines.getD y "").length = demoGame.width) ∧
    (∀ y x, y < demoGame.height → x < demoGame.width →
      (demoGame.renderLines.getD y "").toList.getD x ' ' =
        (if (x : ℤ) = demoGame.player_x ∧ (y : ℤ) = demoGame.player_y then 'o'
         else if pyGet demoGame.maze (x : ℤ) (y : ℤ) then '*' else ' ')) ∧
    (demoGame.render = String.intercalate "\n" demoGame.renderLines) ∧
    (demoGame.maze = demoGame.maze → demoGame.player_x = demoGame.player_x →
      demoGame.player_y = demoGame.player_y → demoGame.render = demoGame.render) :=
  render_spec demoGame demoGame (by decide) (by decide) (by decide) (by decide)

/-! ### Claim C6: start and end positions chosen by the construction scans -/

theorem getD_mem_of_lt {α : Type} (l : List α) (j : ℕ) (d : α) (h : j < l.length) :
    l.getD j d ∈ l := by
  induction l generalizing j with
  | nil => simp at h
  | cons hd tl ih =>
    cases j with
    | zero => exact List.mem_cons_self _ _
    | succ j =>
      exact List.mem_cons_of_mem _ (ih j (by simp only [List.length_cons] at h; omega))

theorem pyGetChecked_ok (maze : List (List Bool)) (x : ℤ) (y : ℕ) (W : ℕ)
    (hy : y < maze.length) (hrect : ∀ r ∈ maze, r.length = W)
    (hx0 : 0 ≤ x) (hxW : x < (W : ℤ)) :
    MazeGame.pyGetChecked maze x y = some (pyGet maze x (y : ℤ)) := by
  have hrow : (maze.getD y []).length = W := hrect _ (getD_mem_of_lt _ y _ hy)
  unfold MazeGame.pyGetChecked pyGet pyRow
  rw [if_pos hy, if_pos (by rw [hrow]; constructor <;> omega)]
  have h1 : pyIdx maze.length (y : ℤ) = y := by
    rw [pyIdx_nonneg _ _ (by omega)]
    omega
  rw [h1]

theorem scanFirst_cons (maze : List (List Bool)) (x : ℤ) (a : ℕ) (cs : List ℕ) :
    MazeGame.scanFirst maze x (a :: cs) =
      match MazeGame.pyGetChecked maze x a with
      | none => none
      | some b => if b then MazeGame.scanFirst maze x cs else some (some a) := rfl

theorem scanFirst_append_skip (maze : List (List Bool)) (x : ℤ) (as bs : List ℕ)
    (h : MazeGame.scanFirst maze x as = some none) :
    MazeGame.scanFirst maze x (as ++ bs) = MazeGame.scanFirst maze x bs := by
  induction as with
  | nil => rw [List.nil_append]
  | cons a as ih =>
    rw [List.cons_append, scanFirst_cons]
    rw [scanFirst_cons] at h
    cases hpc : MazeGame.pyGetChecked maze x a with
    | none => rw [hpc] at h; exact Option.noConfusion h
    | some b =>
      rw [hpc] at h
      cases b with
      | false => exact Option.noConfusion (Option.some.inj h)
      | true => exact ih h

theorem scanFirst_append_hit (maze : List (List Bool)) (x : ℤ) (as bs : List ℕ) (y : ℕ)
    (h : MazeGame.scanFirst maze x as = some (some y)) :
    MazeGame.scanFirst maze x (as ++ bs) = some (some y) := by
  induction as with
  | nil => simp [MazeGame.scanFirst] at h
  | cons a as ih =>
    rw [List.cons_append, scanFirst_cons]
    rw [scanFirst_cons] at h
    cases hpc : MazeGame.pyGetChecked maze x a with
    | none => rw [hpc] at h; exact Option.noConfusion h
    | some b =>
      rw [hpc] at h
      cases b with
      | false => exact h
      | true => exact ih h

theorem scanFirst_range_eq (maze : List (List Bool)) (x : ℤ) (n : ℕ)
    (hok : ∀ y : ℕ, y < n → MazeGame.pyGetChecked maze x y = some (pyGet maze x (y : ℤ))) :
    (MazeGame.scanFirst maze x (List.range n) = some none ∧
      ∀ y : ℕ, y < n → pyGet maze x (y : ℤ) = true) ∨
    (∃ y : ℕ, y < n ∧ MazeGame.scanFirst maze x (List.range n) = some (some y) ∧
      pyGet maze x (y : ℤ) = false ∧ ∀ y' : ℕ, y' < y → pyGet maze x (y' : ℤ) = true) := by
  induction n with
  | zero => exact Or.inl ⟨rfl, fun y hy => absurd hy (by omega)⟩
  | succ n ih =>
    rcases ih (fun y hy => hok y (by omega)) with ⟨hs, hall⟩ | ⟨y, hy, hs, hf, hmin⟩
    · rw [List.range_succ]
      have hstep := scanFirst_append_skip maze x (List.range n) [n] hs
      have hsingle : MazeGame.scanFirst maze x [n] =
          match MazeGame.pyGetChecked maze x n with
          | none => none
          | some b => if b then MazeGame.scanFirst maze x [] else some (some n) :=
        scanFirst_cons maze x n []
      cases hval : pyGet maze x (n : ℤ) with
      | true =>
        refine Or.inl ⟨?_, fun y hy => ?_⟩
        · rw [hstep, hsingle, hok n (by omega), hval]
          rfl
        · rcases Nat.lt_or_ge y n with h | h
          · exact hall y h
          · have hyn : y = n := by omega
            rw [hyn]; exact hval
      | false =>
        refine Or.inr ⟨n, by omega, ?_, hval, hall⟩
        rw [hstep, hsingle, hok n (by omega), hval]
        rfl
    · refine Or.inr ⟨y, by omega, ?_, hf, hmin⟩
      rw [List.range_succ]
      exact scanFirst_append_hit maze x (List.range n) [n] y hs

theorem scanFirst_rev_range_eq (maze : List (List Bool)) (x : ℤ) (n : ℕ)
    (hok : ∀ y : ℕ, y < n → MazeGame.pyGetChecked maze x y = some (pyGet maze x (y : ℤ))) :
    (MazeGame.scanFirst maze x (List.range n).reverse = some none ∧
      ∀ y : ℕ, y < n → pyGet maze x (y : ℤ) = true) ∨
    (∃ y : ℕ, y < n ∧ MazeGame.scanFirst maze x (List.range n).reverse = some (some y) ∧
      pyGet maze x (y : ℤ) = false ∧
      ∀ y' : ℕ, y < y' → y' < n → pyGet maze x (y' : ℤ) = true) := by
  induction n with
  | zero => exact Or.inl ⟨rfl, fun y hy => absurd hy (by omega)⟩
  | succ n ih =>
    have hrev : (List.range (n + 1)).reverse = n :: (List.range n).reverse := by
      rw [List.range_succ, List.reverse_append]
      rfl
    rw [hrev]
    have hcons : MazeGame.scanFirst maze x (n :: (List.range n).reverse) =
        match MazeGame.pyGetChecked maze x n with
        | none => none
        | some b => if b then MazeGame.scanFirst maze x (List.range n).reverse
                    else some (some n) :=
      scanFirst_cons maze x n _
    cases hval : pyGet maze x (n : ℤ) with
    | false =>
      refine Or.inr ⟨n, by omega, ?_, hval, fun y' h1 h2 => absurd h1 (by omega)⟩
      rw [hcons, hok n (by omega), hval]
      rfl
    | true =>
      rw [hcons, hok n (by omega), hval]
      simp only [if_true]
      rcases ih (fun y hy => hok y (by omega)) with ⟨hs, hall⟩ | ⟨y, hy, hs, hf, hmax⟩
      · refine Or.inl ⟨hs, fun y hyn => ?_⟩
        rcases Nat.lt_or_ge y n with h | h
        · exact hall y h
        · have hyn2 : y = n := by omega
          rw [hyn2]; exact hval
      · refine Or.inr ⟨y, by omega, hs, hf, fun y' h1 h2 => ?_⟩
        rcases Nat.lt_or_ge y' n with h | h
        · exact hmax y' h1 h
        · have hy2 : y' = n := by omega
          rw [hy2]; exact hval

/-- Claim C6 (amended): for every non-empty rectangular grid with at
least two columns, construction succeeds and sets the player to
`(1, r)` where `r` is the smallest row index whose column-1 entry is
passable (default `0` when none is), and the end to `(width-2, r')`
where `r'` is the largest row index whose column-`(width-2)` entry is
passable (default `height-1` when none is). -/
theorem init_spec (maze : List (List Bool)) (W : ℕ) (hne : maze ≠ [])
    (hW : 2 ≤ W) (hrect : ∀ r ∈ maze, r.length = W) :
    ∃ gs : MazeGame, MazeGame.init maze = some gs ∧ gs.maze = maze ∧
      gs.height = maze.length ∧ gs.width = W ∧
      gs.player_x = 1 ∧ gs.end_x = (W : ℤ) - 2 ∧
      0 ≤ gs.player_y ∧ gs.player_y < (maze.length : ℤ) ∧
      0 ≤ gs.end_y ∧ gs.end_y < (maze.length : ℤ) ∧
      ((∀ y : ℕ, y < maze.length → pyGet maze 1 (y : ℤ) = true) → gs.player_y = 0) ∧
      ((∃ y : ℕ, y < maze.length ∧ pyGet maze 1 (y : ℤ) = false) →
        pyGet maze 1 gs.player_y = false ∧
        ∀ y : ℤ, 0 ≤ y → y < gs.player_y → pyGet maze 1 y = true) ∧
      ((∀ y : ℕ, y < maze.length → pyGet maze ((W : ℤ) - 2) (y : ℤ) = true) →
        gs.end_y = (maze.length : ℤ) - 1) ∧
      ((∃ y : ℕ, y < maze.length ∧ pyGet maze ((W : ℤ) - 2) (y : ℤ) = false) →
        pyGet maze ((W : ℤ) - 2) gs.end_y = false ∧
        ∀ y : ℤ, gs.end_y < y → y < (maze.length : ℤ) →
          pyGet maze ((W : ℤ) - 2) y = true) := by
  have hlen : ¬(maze.length = 0) := fun h0 => hne (List.length_eq_zero.mp h0)
  have hpos : 0 < maze.length := by omega
  have hw0 : (maze.getD 0 []).length = W := hrect _ (getD_mem_of_lt _ 0 _ hpos)
  have hok1 : ∀ y : ℕ, y < maze.length →
      MazeGame.pyGetChecked maze 1 y = some (pyGet maze 1 (y : ℤ)) :=
    fun y hy => pyGetChecked_ok maze 1 y W hy hrect (by omega) (by omega)
  have hok2 : ∀ y : ℕ, y < maze.length →
      MazeGame.pyGetChecked maze ((W : ℤ) - 2) y =
        some (pyGet maze ((W : ℤ) - 2) (y : ℤ)) :=
    fun y hy => pyGetChecked_ok maze ((W : ℤ) - 2) y W hy hrect (by omega) (by omega)
  simp only [MazeGame.init]
  rw [if_neg hlen, hw0]
  rcases scanFirst_range_eq maze 1 maze.length hok1 with ⟨hs, hall⟩ | ⟨y, hy, hs, hf, hmin⟩ <;>
    rcases scanFirst_rev_range_eq maze ((W : ℤ) - 2) maze.length hok2 with
      ⟨he, hallE⟩ | ⟨z, hz, he, hfE, hmax⟩ <;>
    rw [hs, he]
  · refine ⟨_, rfl, rfl, rfl, rfl, rfl, rfl, ?_, ?_, ?_, ?_, ?_, ?_, ?_, ?_⟩
    · simp
    · simp only [Option.getD_none, Nat.cast_zero]; omega
    · simp only [Option.getD_none]; omega
    · simp only [Option.getD_none]; omega
    · intro _; simp
    · rintro ⟨y0, hy0, hf0⟩
      rw [hall y0 hy0] at hf0
      exact Bool.noConfusion hf0
    · intro _; simp only [Option.getD_none]; omega
    · rintro ⟨z0, hz0, hf0⟩
      rw [hallE z0 hz0] at hf0
      exact Bool.noConfusion hf0
  · refine ⟨_, rfl, rfl, rfl, rfl, rfl, rfl, ?_, ?_, ?_, ?_, ?_, ?_, ?_, ?_⟩
    · simp
    · simp only [Option.getD_none, Nat.cast_zero]; omega
    · simp only [Option.getD_some]; omega
    · simp only [Option.getD_some]; omega
    · intro _; simp
    · rintro ⟨y0, hy0, hf0⟩
      rw [hall y0 hy0] at hf0
      exact Bool.noConfusion hf0
    · intro hallT
      rw [hallT z hz] at hfE
      exact Bool.noConfusion hfE
    · intro _
      refine ⟨hfE, ?_⟩
      intro yy h1 h2
      have h1' : ((z : ℕ) : ℤ) < yy := h1
      have hyy : yy = ((yy.toNat : ℕ) : ℤ) := by omega
      rw [hyy]
      refine hmax yy.toNat ?_ ?_ <;> omega
  · refine ⟨_, rfl, rfl, rfl, rfl, rfl, rfl, ?_, ?_, ?_, ?_, ?_, ?_, ?_, ?_⟩
    · simp only [Option.getD_some]; omega
    · simp only [Option.getD_some]; omega
    · simp only [Option.getD_none]; omega
    · simp only [Option.getD_none]; omega
    · intro hallT
      rw [hallT y hy] at hf
      exact Bool.noConfusion hf
    · intro _
      refine ⟨hf, ?_⟩
      intro yy h1 h2
      have h2' : yy < ((y : ℕ) : ℤ) := h2
      have hyy : yy = ((yy.toNat : ℕ) : ℤ) := by omega
      rw [hyy]
      refine hmin yy.toNat ?_
      omega
    · intro _; simp only [Option.getD_none]; omega
    · rintro ⟨z0, hz0, hf0⟩
      rw [hallE z0 hz0] at hf0
      exact Bool.noConfusion hf0
  · refine ⟨_, rfl, rfl, rfl, rfl, rfl, rfl, ?_, ?_, ?_, ?_, ?_, ?_, ?_, ?_⟩
    · simp only [Option.getD_some]; omega
    · simp only [Option.getD_some]; omega
    · simp only [Option.getD_some]; omega
    · simp only [Option.getD_some]; omega
    · intro hallT
      rw [hallT y hy] at hf
      exact Bool.noConfusion hf
    · intro _
      refine ⟨hf, ?_⟩
      intro yy h1 h2
      have h2' : yy < ((y : ℕ) : ℤ) := h2
      have hyy : yy = ((yy.toNat : ℕ) : ℤ) := by omega
      rw [hyy]
      refine hmin yy.toNat ?_
      omega
    · intro hallT
      rw [hallT z hz] at hfE
      exact Bool.noConfusion hfE
    · intro _
      refine ⟨hfE, ?_⟩
      intro yy h1 h2
      have h1' : ((z : ℕ) : ℤ) < yy := h1
      have hyy : yy = ((yy.toNat : ℕ) : ℤ) := by omega
      rw [hyy]
      refine hmax yy.toNat ?_ ?_ <;> omega

/-- Claim C6 counterexample: on the non-empty rectangular one-column grid
`[[False], [True]]` the construction does not produce a game state at
all — the start scan reads `maze[0][1]`, which raises `IndexError`
(modelled as `none`) — so no player or end position is set. -/
theorem init_one_col_fails : MazeGame.init [[false], [true]] = none := by decide

/-- Instantiation of `init_spec` on the demo grid. -/
theorem init_spec_witness :
    ∃ gs : MazeGame, MazeGame.init demoGrid = some gs ∧ gs.maze = demoGrid ∧
      gs.height = demoGrid.length ∧ gs.width = 3 ∧
      gs.player_x = 1 ∧ gs.end_x = (3 : ℤ) - 2 ∧
      0 ≤ gs.player_y ∧ gs.player_y < (demoGrid.length : ℤ) ∧
      0 ≤ gs.end_y ∧ gs.end_y < (demoGrid.length : ℤ) ∧
      ((∀ y : ℕ, y < demoGrid.length → pyGet demoGrid 1 (y : ℤ) = true) → gs.player_y = 0) ∧
      ((∃ y : ℕ, y < demoGrid.length ∧ pyGet demoGrid 1 (y : ℤ) = false) →
        pyGet demoGrid 1 gs.player_y = false ∧
        ∀ y : ℤ, 0 ≤ y → y < gs.player_y → pyGet demoGrid 1 y = true) ∧
      ((∀ y : ℕ, y < demoGrid.length → pyGet demoGrid ((3 : ℤ) - 2) (y : ℤ) = true) →
        gs.end_y = (demoGrid.length : ℤ) - 1) ∧
      ((∃ y : ℕ, y < demoGrid.length ∧ pyGet demoGrid ((3 : ℤ) - 2) (y : ℤ) = false) →
        pyGet demoGrid ((3 : ℤ) - 2) gs.end_y = false ∧
        ∀ y : ℤ, gs.end_y < y → y < (demoGrid.length : ℤ) →
          pyGet demoGrid ((3 : ℤ) - 2) y = true) :=
  init_spec demoGrid 3 (by decide) (by decide) (by decide)

/-! ### The cell set, reachability monotonicity and the neighbour scan -/

theorem mem_cellSet (w h : ℕ) (x y : ℤ) :
    (x, y) ∈ cellSet w h ↔ IsCell w h (x, y) := by
  unfold cellSet IsCell
  simp only [Finset.mem_image, Finset.mem_product, Finset.mem_range, Prod.mk.injEq]
  constructor
  · rintro ⟨⟨i, j⟩, ⟨hi, hj⟩, hx, hy⟩
    refine ⟨by omega, by omega, by omega, by omega, by omega, by omega⟩
  · rintro ⟨hx2, hy2, hx0, hxW, hy0, hyH⟩
    exact ⟨⟨x.toNat / 2, y.toNat / 2⟩, ⟨by omega, by omega⟩, by omega, by omega⟩

theorem card_cellSet (w h : ℕ) : (cellSet w h).card = w * h := by
  unfold cellSet
  have hinj : Function.Injective
      (fun ij : ℕ × ℕ => ((ij.1 : ℤ) * 2 + 1, (ij.2 : ℤ) * 2 + 1)) := by
    intro a b hab
    simp only [Prod.mk.injEq] at hab
    have h1 : a.1 = b.1 := by omega
    have h2 : a.2 = b.2 := by omega
    exact Prod.ext h1 h2
  rw [Finset.card_image_of_injective _ hinj, Finset.card_product]
  simp

theorem Reach_mono (g g' : List (List Bool))
    (hmono : ∀ a b : ℤ, pyGet g a b = false → pyGet g' a b = false)
    (p q : ℤ × ℤ) (hr : Reach g p q) : Reach g' p q := by
  induction hr with
  | refl hp => exact Reach.refl _ (hmono _ _ hp)
  | step b c hab hadj hc ih => exact Reach.step _ _ _ ih hadj (hmono _ _ hc)

theorem neighborsOf_mem (grid : List (List Bool)) (visited : Finset (ℤ × ℤ))
    (cx cy : ℤ) (t : ℤ × ℤ × ℤ × ℤ)
    (ht : t ∈ MazeGenerator.neighborsOf grid visited cx cy) :
    ∃ d ∈ MazeGenerator.dirs, t = (cx + d.1, cy + d.2, d.1, d.2) ∧
      0 < cx + d.1 ∧ cx + d.1 < ((grid.getD 0 []).length : ℤ) ∧
      0 < cy + d.2 ∧ cy + d.2 < (grid.length : ℤ) ∧
      (cx + d.1, cy + d.2) ∉ visited := by
  unfold MazeGenerator.neighborsOf at ht
  rw [List.mem_filterMap] at ht
  obtain ⟨d, hd, hfd⟩ := ht
  refine ⟨d, hd, ?_⟩
  split at hfd
  · next hcond =>
    obtain rfl := Option.some.inj hfd
    exact ⟨rfl, hcond.1, hcond.2.1, hcond.2.2.1, hcond.2.2.2.1, hcond.2.2.2.2⟩
  · exact Option.noConfusion hfd

theorem neighborsOf_nil (grid : List (List Bool)) (visited : Finset (ℤ × ℤ))
    (cx cy : ℤ) (hnil : MazeGenerator.neighborsOf grid visited cx cy = [])
    (d : ℤ × ℤ) (hd : d ∈ MazeGenerator.dirs)
    (hb : 0 < cx + d.1 ∧ cx + d.1 < ((grid.getD 0 []).length : ℤ) ∧
      0 < cy + d.2 ∧ cy + d.2 < (grid.length : ℤ)) :
    (cx + d.1, cy + d.2) ∈ visited := by
  unfold MazeGenerator.neighborsOf at hnil
  rw [List.filterMap_eq_nil_iff] at hnil
  have hfd := hnil d hd
  by_contra hnv
  rw [if_pos ⟨hb.1, hb.2.1, hb.2.2.1, hb.2.2.2, hnv⟩] at hfd
  exact Option.noConfusion hfd

theorem carve_measure (w h : ℕ) (g g' : List (List Bool)) (stk : List (ℤ × ℤ))
    (V : Finset (ℤ × ℤ)) (q : ℤ × ℤ) (hq : IsCell w h q) (hnv : q ∉ V) :
    genMeasure w h ⟨g', q :: stk, insert q V⟩ < genMeasure w h ⟨g, stk, V⟩ := by
  unfold genMeasure
  have hqc : q ∈ cellSet w h := by
    obtain ⟨qx, qy⟩ := q
    exact (mem_cellSet w h qx qy).mpr hq
  have hsd : cellSet w h \ insert q V = (cellSet w h \ V).erase q := by
    ext a
    simp only [Finset.mem_sdiff, Finset.mem_insert, Finset.mem_erase]
    tauto
  have hqm : q ∈ cellSet w h \ V := Finset.mem_sdiff.mpr ⟨hqc, hnv⟩
  have hpos : 0 < (cellSet w h \ V).card := Finset.card_pos.mpr ⟨q, hqm⟩
  simp only [hsd, Finset.card_erase_of_mem hqm, List.length_cons]
  omega

/-! ### Preservation of the generator loop invariant -/

theorem carve_inv (w h : ℕ) (grid : List (List Bool)) (cx cy : ℤ)
    (rest : List (ℤ × ℤ)) (V : Finset (ℤ × ℤ))
    (hI : GenInv w h ⟨grid, (cx, cy) :: rest, V⟩)
    (nx ny wx wy : ℤ)
    (hN : IsCell w h (nx, ny)) (hnv : (nx, ny) ∉ V)
    (hadj1 : AdjStep (cx, cy) (wx, wy)) (hadj2 : AdjStep (wx, wy) (nx, ny))
    (hWint : 0 < wx ∧ wx < (w : ℤ) * 2 ∧ 0 < wy ∧ wy < (h : ℤ) * 2)
    (hWpar : wx % 2 = 1 ∨ wy % 2 = 1) :
    GenInv w h ⟨pySet (pySet grid wx wy false) nx ny false,
      (nx, ny) :: (cx, cy) :: rest, insert (nx, ny) V⟩ := by
  have hrows : grid.length = h * 2 + 1 := hI.rowsLen
  have hcols : ∀ j, j < h * 2 + 1 → (grid.getD j []).length = w * 2 + 1 := hI.colsLen
  have hN' : nx % 2 = 1 ∧ ny % 2 = 1 ∧ 0 < nx ∧ nx < (w : ℤ) * 2 + 1 ∧
      0 < ny ∧ ny < (h : ℤ) * 2 + 1 := hN
  have hwyL : wy.toNat < grid.length := by rw [hrows]; omega
  have hwxL : wx.toNat < (grid.getD wy.toNat []).length := by
    rw [hcols wy.toNat (by omega)]; omega
  have hnyL : ny.toNat < (pySet grid wx wy false).length := by
    rw [length_pySet, hrows]; omega
  have hnxL : nx.toNat < ((pySet grid wx wy false).getD ny.toNat []).length := by
    rw [getD_length_pySet, hcols ny.toNat (by omega)]; omega
  have hwall : pyGet (pySet (pySet grid wx wy false) nx ny false) wx wy = false :=
    pyGet_pySet_false _ nx ny wx wy
      (pyGet_pySet_same grid wx wy false (by omega) (by omega) hwyL hwxL)
  have hnbr : pyGet (pySet (pySet grid wx wy false) nx ny false) nx ny = false :=
    pyGet_pySet_same _ nx ny false (by omega) (by omega) hnyL hnxL
  have hmono : ∀ a b : ℤ, pyGet grid a b = false →
      pyGet (pySet (pySet grid wx wy false) nx ny false) a b = false :=
    fun a b hab => pyGet_pySet_false _ nx ny a b (pyGet_pySet_false grid wx wy a b hab)
  refine ⟨?_, ?_, ?_, ?_, ?_, ?_, ?_, ?_, ?_⟩
  · rw [length_pySet, length_pySet]; exact hrows
  · intro j hj
    rw [getD_length_pySet, getD_length_pySet]; exact hcols j hj
  · intro p hp
    rcases Finset.mem_insert.mp hp with rfl | hp
    · exact hN
    · exact hI.visCell p hp
  · intro p hp
    rcases List.mem_cons.mp hp with rfl | hp
    · exact Finset.mem_insert_self _ _
    · exact Finset.mem_insert_of_mem (hI.stackVis p hp)
  · exact Finset.mem_insert_of_mem hI.startVis
  · intro p hp
    rcases Finset.mem_insert.mp hp with rfl | hp
    · exact hnbr
    · exact hmono _ _ (hI.visPass p hp)
  · intro p hp
    rcases Finset.mem_insert.mp hp with rfl | hp
    · exact Reach.step _ (wx, wy) _
        (Reach.step _ (cx, cy) _
          (Reach_mono _ _ hmono _ _
            (hI.visReach _ (hI.stackVis _ (List.mem_cons_self _ _))))
          hadj1 hwall)
        hadj2 hnbr
    · exact Reach_mono _ _ hmono _ _ (hI.visReach p hp)
  · intro p hp hpn q hq
    rcases Finset.mem_insert.mp hp with rfl | hp
    · exact absurd (List.mem_cons_self _ _) hpn
    · have hpn' : p ∉ (cx, cy) :: rest := fun hc => hpn (List.mem_cons_of_mem _ hc)
      exact Finset.mem_insert_of_mem (hI.closedOff p hp hpn' q hq)
  · intro x y hx0 hy0 hfalse
    by_cases hxy1 : x = nx ∧ y = ny
    · obtain ⟨rfl, rfl⟩ := hxy1
      exact ⟨by omega, by omega, by omega, by omega, Or.inl (by omega)⟩
    · by_cases hxy2 : x = wx ∧ y = wy
      · obtain ⟨rfl, rfl⟩ := hxy2
        exact ⟨hWint.1, hWint.2.1, hWint.2.2.1, hWint.2.2.2, hWpar⟩
      · have hne2 : nx ≠ x ∨ ny ≠ y := by omega
        have hne1 : wx ≠ x ∨ wy ≠ y := by omega
        rw [pyGet_pySet_ne _ nx ny x y false (by omega) (by omega) hx0 hy0 hne2,
          pyGet_pySet_ne grid wx wy x y false (by omega) (by omega) hx0 hy0 hne1] at hfalse
        exact hI.passInt x y hx0 hy0 hfalse

theorem pop_inv (w h : ℕ) (grid : List (List Bool)) (cx cy : ℤ)
    (rest : List (ℤ × ℤ)) (V : Finset (ℤ × ℤ))
    (hI : GenInv w h ⟨grid, (cx, cy) :: rest, V⟩)
    (hnil : MazeGenerator.neighborsOf grid V cx cy = []) :
    GenInv w h ⟨grid, rest, V⟩ := by
  have hrows : grid.length = h * 2 + 1 := hI.rowsLen
  have hcols : ∀ j, j < h * 2 + 1 → (grid.getD j []).length = w * 2 + 1 := hI.colsLen
  have hcols0 : ((grid.getD 0 []).length : ℤ) = ((w * 2 + 1 : ℕ) : ℤ) := by
    rw [hcols 0 (by omega)]
  have hrowsZ : ((grid.length : ℕ) : ℤ) = ((h * 2 + 1 : ℕ) : ℤ) := by rw [hrows]
  refine ⟨hrows, hcols, hI.visCell, ?_, hI.startVis, hI.visPass, hI.visReach, ?_, hI.passInt⟩
  · intro p hp
    exact hI.stackVis p (List.mem_cons_of_mem _ hp)
  · intro p hp hpn q hq
    by_cases hpc : p = (cx, cy)
    · subst hpc
      have hq' : (q = (cx, cy - 2) ∨ q = (cx + 2, cy) ∨ q = (cx, cy + 2) ∨
          q = (cx - 2, cy)) ∧ 0 < q.1 ∧ q.1 < (w : ℤ) * 2 + 1 ∧
          0 < q.2 ∧ q.2 < (h : ℤ) * 2 + 1 := hq
      obtain ⟨hdisj, hq1, hq2, hq3, hq4⟩ := hq'
      rcases hdisj with hqe | hqe | hqe | hqe <;> subst hqe
      · have hb1 : 0 < cx := hq1
        have hb2 : cx < (w : ℤ) * 2 + 1 := hq2
        have hb3 : 0 < cy - 2 := hq3
        have hb4 : cy - 2 < (h : ℤ) * 2 + 1 := hq4
        have hmem := neighborsOf_nil grid V cx cy hnil (0, -2) (by simp [MazeGenerator.dirs])
          ⟨show 0 < cx + (0 : ℤ) by omega,
           show cx + (0 : ℤ) < ((grid.getD 0 []).length : ℤ) by rw [hcols0]; omega,
           show 0 < cy + (-2 : ℤ) by omega,
           show cy + (-2 : ℤ) < ((grid.length : ℕ) : ℤ) by rw [hrowsZ]; omega⟩
        have heq : (cx + (0 : ℤ), cy + (-2 : ℤ)) = (cx, cy - 2) := by
          rw [Prod.mk.injEq]; constructor <;> ring
        rw [heq] at hmem
        exact hmem
      · have hb1 : 0 < cx + 2 := hq1
        have hb2 : cx + 2 < (w : ℤ) * 2 + 1 := hq2
        have hb3 : 0 < cy := hq3
        have hb4 : cy < (h : ℤ) * 2 + 1 := hq4
        have hmem := neighborsOf_nil grid V cx cy hnil (2, 0) (by simp [MazeGenerator.dirs])
          ⟨show 0 < cx + (2 : ℤ) by omega,
           show cx + (2 : ℤ) < ((grid.getD 0 []).length : ℤ) by rw [hcols0]; omega,
           show 0 < cy + (0 : ℤ) by omega,
           show cy + (0 : ℤ) < ((grid.length : ℕ) : ℤ) by rw [hrowsZ]; omega⟩
        have heq : (cx + (2 : ℤ), cy + (0 : ℤ)) = (cx + 2, cy) := by
          rw [Prod.mk.injEq]; constructor <;> ring
        rw [heq] at hmem
        exact hmem
      · have hb1 : 0 < cx := hq1
        have hb2 : cx < (w : ℤ) * 2 + 1 := hq2
        have hb3 : 0 < cy + 2 := hq3
        have hb4 : cy + 2 < (h : ℤ) * 2 + 1 := hq4
        have hmem := neighborsOf_nil grid V cx cy hnil (0, 2) (by simp [MazeGenerator.dirs])
          ⟨show 0 < cx + (0 : ℤ) by omega,
           show cx + (0 : ℤ) < ((grid.getD 0 []).length : ℤ) by rw [hcols0]; omega,
           show 0 < cy + (2 : ℤ) by omega,
           show cy + (2 : ℤ) < ((grid.length : ℕ) : ℤ) by rw [hrowsZ]; omega⟩
        have heq : (cx + (0 : ℤ), cy + (2 : ℤ)) = (cx, cy + 2) := by
          rw [Prod.mk.injEq]; constructor <;> ring
        rw [heq] at hmem
        exact hmem
      · have hb1 : 0 < cx - 2 := hq1
        have hb2 : cx - 2 < (w : ℤ) * 2 + 1 := hq2
        have hb3 : 0 < cy := hq3
        have hb4 : cy < (h : ℤ) * 2 + 1 := hq4
        have hmem := neighborsOf_nil grid V cx cy hnil (-2, 0) (by simp [MazeGenerator.dirs])
          ⟨show 0 < cx + (-2 : ℤ) by omega,
           show cx + (-2 : ℤ) < ((grid.getD 0 []).length : ℤ) by rw [hcols0]; omega,
           show 0 < cy + (0 : ℤ) by omega,
           show cy + (0 : ℤ) < ((grid.length : ℕ) : ℤ) by rw [hrowsZ]; omega⟩
        have heq : (cx + (-2 : ℤ), cy + (0 : ℤ)) = (cx - 2, cy) := by
          rw [Prod.mk.injEq]; constructor <;> ring
        rw [heq] at hmem
        exact hmem
    · have hpn' : p ∉ (cx, cy) :: rest := by
        intro hmem
        rcases List.mem_cons.mp hmem with h1 | h1
        · exact hpc h1
        · exact hpn h1
      exact hI.closedOff p hp hpn' q hq

theorem genStep_inv (w h : ℕ) (rand : ℕ → ℕ) (k : ℕ) (grid : List (List Bool))
    (cx cy : ℤ) (rest : List (ℤ × ℤ)) (V : Finset (ℤ × ℤ))
    (hI : GenInv w h ⟨grid, (cx, cy) :: rest, V⟩) :
    GenInv w h (MazeGenerator.genStep rand k ⟨grid, (cx, cy) :: rest, V⟩) ∧
    genMeasure w h (MazeGenerator.genStep rand k ⟨grid, (cx, cy) :: rest, V⟩) <
      genMeasure w h ⟨grid, (cx, cy) :: rest, V⟩ := by
  by_cases hnil : MazeGenerator.neighborsOf grid V cx cy = []
  · have hgs : MazeGenerator.genStep rand k ⟨grid, (cx, cy) :: rest, V⟩ =
        ⟨grid, rest, V⟩ := by
      simp only [MazeGenerator.genStep]
      rw [if_pos hnil]
    rw [hgs]
    refine ⟨pop_inv w h grid cx cy rest V hI hnil, ?_⟩
    unfold genMeasure
    simp only [List.length_cons]
    omega
  · have hlen : 0 < (MazeGenerator.neighborsOf grid V cx cy).length :=
      List.length_pos.mpr hnil
    have hmem : (MazeGenerator.neighborsOf grid V cx cy).getD
        (rand k % (MazeGenerator.neighborsOf grid V cx cy).length) (0, 0, 0, 0) ∈
          MazeGenerator.neighborsOf grid V cx cy :=
      getD_mem_of_lt _ _ _ (Nat.mod_lt _ hlen)
    obtain ⟨d, hd, ht, hb1, hb2, hb3, hb4, hnv⟩ := neighborsOf_mem _ _ _ _ _ hmem
    have hcols0 : ((grid.getD 0 []).length : ℤ) = ((w * 2 + 1 : ℕ) : ℤ) := by
      rw [hI.colsLen 0 (by omega)]
    have hrowsZ : ((grid.length : ℕ) : ℤ) = ((h * 2 + 1 : ℕ) : ℤ) := by
      rw [hI.rowsLen]
    rw [hcols0] at hb2
    rw [hrowsZ] at hb4
    have hC : cx % 2 = 1 ∧ cy % 2 = 1 ∧ 0 < cx ∧ cx < (w : ℤ) * 2 + 1 ∧
        0 < cy ∧ cy < (h : ℤ) * 2 + 1 :=
      hI.visCell _ (hI.stackVis _ (List.mem_cons_self _ _))
    have hgs : MazeGenerator.genStep rand k ⟨grid, (cx, cy) :: rest, V⟩ =
        ⟨pySet (pySet grid (cx + d.1 / 2) (cy + d.2 / 2) false) (cx + d.1) (cy + d.2) false,
         (cx + d.1, cy + d.2) :: (cx, cy) :: rest, insert (cx + d.1, cy + d.2) V⟩ := by
      simp only [MazeGenerator.genStep]
      rw [if_neg hnil, ht]
    rw [hgs]
    have e1 : (0 : ℤ) / 2 = 0 := by decide
    have e2 : (-2 : ℤ) / 2 = -1 := by decide
    have e3 : (2 : ℤ) / 2 = 1 := by decide
    have hdcase : d = ((0 : ℤ), (-2 : ℤ)) ∨ d = (2, 0) ∨ d = (0, 2) ∨ d = (-2, 0) := by
      simpa [MazeGenerator.dirs] using hd
    rcases hdcase with rfl | rfl | rfl | rfl
    · -- up: d = (0, -2)
      have hb1' : 0 < cx + (0 : ℤ) := hb1
      have hb2' : cx + (0 : ℤ) < ((w * 2 + 1 : ℕ) : ℤ) := hb2
      have hb3' : 0 < cy + (-2 : ℤ) := hb3
      have hb4' : cy + (-2 : ℤ) < ((h * 2 + 1 : ℕ) : ℤ) := hb4
      have hNc : IsCell w h (cx + (0 : ℤ), cy + (-2 : ℤ)) :=
        ⟨by omega, by omega, by omega, by omega, by omega, by omega⟩
      refine ⟨carve_inv w h grid cx cy rest V hI (cx + (0 : ℤ)) (cy + (-2 : ℤ))
        (cx + (0 : ℤ) / 2) (cy + (-2 : ℤ) / 2) hNc hnv ?_ ?_ ?_ ?_,
        carve_measure w h grid _ ((cx, cy) :: rest) V _ hNc hnv⟩
      · exact Or.inl ⟨by show cx + (0 : ℤ) / 2 = cx; rw [e1]; ring,
          Or.inr (by show cy + (-2 : ℤ) / 2 = cy - 1; rw [e2]; ring)⟩
      · exact Or.inl ⟨by show cx + (0 : ℤ) = cx + (0 : ℤ) / 2; rw [e1],
          Or.inr (by show cy + (-2 : ℤ) = cy + (-2 : ℤ) / 2 - 1; rw [e2]; ring)⟩
      · refine ⟨?_, ?_, ?_, ?_⟩
        · show 0 < cx + (0 : ℤ) / 2; rw [e1]; omega
        · show cx + (0 : ℤ) / 2 < (w : ℤ) * 2; rw [e1]; omega
        · show 0 < cy + (-2 : ℤ) / 2; rw [e2]; omega
        · show cy + (-2 : ℤ) / 2 < (h : ℤ) * 2; rw [e2]; omega
      · exact Or.inl (by show (cx + (0 : ℤ) / 2) % 2 = 1; rw [e1]; omega)
    · -- right: d = (2, 0)
      have hb1' : 0 < cx + (2 : ℤ) := hb1
      have hb2' : cx + (2 : ℤ) < ((w * 2 + 1 : ℕ) : ℤ) := hb2
      have hb3' : 0 < cy + (0 : ℤ) := hb3
      have hb4' : cy + (0 : ℤ) < ((h * 2 + 1 : ℕ) : ℤ) := hb4
      have hNc : IsCell w h (cx + (2 : ℤ), cy + (0 : ℤ)) :=
        ⟨by omega, by omega, by omega, by omega, by omega, by omega⟩
      refine ⟨carve_inv w h grid cx cy rest V hI (cx + (2 : ℤ)) (cy + (0 : ℤ))
        (cx + (2 : ℤ) / 2) (cy + (0 : ℤ) / 2) hNc hnv ?_ ?_ ?_ ?_,
        carve_measure w h grid _ ((cx, cy) :: rest) V _ hNc hnv⟩
      · exact Or.inr ⟨by show cy + (0 : ℤ) / 2 = cy; rw [e1]; ring,
          Or.inl (by show cx + (2 : ℤ) / 2 = cx + 1; rw [e3])⟩
      · exact Or.inr ⟨by show cy + (0 : ℤ) = cy + (0 : ℤ) / 2; rw [e1],
          Or.inl (by show cx + (2 : ℤ) = cx + (2 : ℤ) / 2 + 1; rw [e3]; ring)⟩
      · refine ⟨?_, ?_, ?_, ?_⟩
        · show 0 < cx + (2 : ℤ) / 2; rw [e3]; omega
        · show cx + (2 : ℤ) / 2 < (w : ℤ) * 2; rw [e3]; omega
        · show 0 < cy + (0 : ℤ) / 2; rw [e1]; omega
        · show cy + (0 : ℤ) / 2 < (h : ℤ) * 2; rw [e1]; omega
      · exact Or.inr (by show (cy + (0 : ℤ) / 2) % 2 = 1; rw [e1]; omega)
    · -- down: d = (0, 2)
      have hb1' : 0 < cx + (0 : ℤ) := hb1
      have hb2' : cx + (0 : ℤ) < ((w * 2 + 1 : ℕ) : ℤ) := hb2
      have hb3' : 0 < cy + (2 : ℤ) := hb3
      have hb4' : cy + (2 : ℤ) < ((h * 2 + 1 : ℕ) : ℤ) := hb4
      have hNc : IsCell w h (cx + (0 : ℤ), cy + (2 : ℤ)) :=
        ⟨by omega, by omega, by omega, by omega, by omega, by omega⟩
      refine ⟨carve_inv w h grid cx cy rest V hI (cx + (0 : ℤ)) (cy + (2 : ℤ))
        (cx + (0 : ℤ) / 2) (cy + (2 : ℤ) / 2) hNc hnv ?_ ?_ ?_ ?_,
        carve_measure w h grid _ ((cx, cy) :: rest) V _ hNc hnv⟩
      · exact Or.inl ⟨by show cx + (0 : ℤ) / 2 = cx; rw [e1]; ring,
          Or.inl (by show cy + (2 : ℤ) / 2 = cy + 1; rw [e3])⟩
      · exact Or.inl ⟨by show cx + (0 : ℤ) = cx + (0 : ℤ) / 2; rw [e1],
          Or.inl (by show cy + (2 : ℤ) = cy + (2 : ℤ) / 2 + 1; rw [e3]; ring)⟩
      · refine ⟨?_, ?_, ?_, ?_⟩
        · show 0 < cx + (0 : ℤ) / 2; rw [e1]; omega
        · show cx + (0 : ℤ) / 2 < (w : ℤ) * 2; rw [e1]; omega
        · show 0 < cy + (2 : ℤ) / 2; rw [e3]; omega
        · show cy + (2 : ℤ) / 2 < (h : ℤ) * 2; rw [e3]; omega
      · exact Or.inl (by show (cx + (0 : ℤ) / 2) % 2 = 1; rw [e1]; omega)
    · -- left: d = (-2, 0)
      have hb1' : 0 < cx + (-2 : ℤ) := hb1
      have hb2' : cx + (-2 : ℤ) < ((w * 2 + 1 : ℕ) : ℤ) := hb2
      have hb3' : 0 < cy + (0 : ℤ) := hb3
      have hb4' : cy + (0 : ℤ) < ((h * 2 + 1 : ℕ) : ℤ) := hb4
      have hNc : IsCell w h (cx + (-2 : ℤ), cy + (0 : ℤ)) :=
        ⟨by omega, by omega, by omega, by omega, by omega, by omega⟩
      refine ⟨carve_inv w h grid cx cy rest V hI (cx + (-2 : ℤ)) (cy + (0 : ℤ))
        (cx + (-2 : ℤ) / 2) (cy + (0 : ℤ) / 2) hNc hnv ?_ ?_ ?_ ?_,
        carve_measure w h grid _ ((cx, cy) :: rest) V _ hNc hnv⟩
      · exact Or.inr ⟨by show cy + (0 : ℤ) / 2 = cy; rw [e1]; ring,
          Or.inr (by show cx + (-2 : ℤ) / 2 = cx - 1; rw [e2]; ring)⟩
      · exact Or.inr ⟨by show cy + (0 : ℤ) = cy + (0 : ℤ) / 2; rw [e1],
          Or.inr (by show cx + (-2 : ℤ) = cx + (-2 : ℤ) / 2 - 1; rw [e2]; ring)⟩
      · refine ⟨?_, ?_, ?_, ?_⟩
        · show 0 < cx + (-2 : ℤ) / 2; rw [e2]; omega
        · show cx + (-2 : ℤ) / 2 < (w : ℤ) * 2; rw [e2]; omega
        · show 0 < cy + (0 : ℤ) / 2; rw [e1]; omega
        · show cy + (0 : ℤ) / 2 < (h : ℤ) * 2; rw [e1]; omega
      · exact Or.inr (by show (cy + (0 : ℤ) / 2) % 2 = 1; rw [e1]; omega)

theorem genLoop_inv (w h : ℕ) (rand : ℕ → ℕ) :
    ∀ (fuel k : ℕ) (st : MazeGenerator.GenState), GenInv w h st →
      genMeasure w h st ≤ fuel →
      ∃ st', MazeGenerator.genLoop rand fuel k st = some st' ∧
        GenInv w h st' ∧ st'.stack = [] := by
  intro fuel
  induction fuel with
  | zero =>
    intro k st hI hm
    have hst : st.stack = [] := by
      unfold genMeasure at hm
      have hzero : st.stack.length = 0 := by omega
      exact List.length_eq_zero.mp hzero
    refine ⟨st, ?_, hI, hst⟩
    unfold MazeGenerator.genLoop
    rw [if_pos hst]
  | succ fuel ih =>
    intro k st hI hm
    by_cases hst : st.stack = []
    · refine ⟨st, ?_, hI, hst⟩
      unfold MazeGenerator.genLoop
      rw [if_pos hst]
    · obtain ⟨grid, stack, V⟩ := st
      obtain ⟨⟨cx, cy⟩, rest, rfl⟩ := List.exists_cons_of_ne_nil hst
      have hstep := genStep_inv w h rand k grid cx cy rest V hI
      have hm' : genMeasure w h
          (MazeGenerator.genStep rand k ⟨grid, (cx, cy) :: rest, V⟩) ≤ fuel := by
        have hdec := hstep.2
        omega
      obtain ⟨st', hloop, hI', hstack'⟩ := ih (k + 1) _ hstep.1 hm'
      refine ⟨st', ?_, hI', hstack'⟩
      show MazeGenerator.genLoop rand (fuel + 1) k ⟨grid, (cx, cy) :: rest, V⟩ = some st'
      unfold MazeGenerator.genLoop
      rw [if_neg hst]
      exact hloop

theorem generate_inv (width height : ℕ) (rand : ℕ → ℕ)
    (hw : 1 ≤ width) (hh : 1 ≤ height) :
    ∃ st : MazeGenerator.GenState,
      GenInv width height st ∧ st.stack = [] ∧
      MazeGenerator.generate width height rand =
        some (pySet (pySet st.grid 1 0 false) (-2) (-1) false) := by
  have hrows0 : (pySet (MazeGenerator.initGrid width height) 1 1 false).length =
      height * 2 + 1 := by
    rw [length_pySet]
    unfold MazeGenerator.initGrid
    simp
  have hcols0 : ∀ j, j < height * 2 + 1 →
      ((pySet (MazeGenerator.initGrid width height) 1 1 false).getD j []).length =
        width * 2 + 1 := by
    intro j hj
    rw [getD_length_pySet]
    unfold MazeGenerator.initGrid
    rw [getD_replicate, if_pos hj]
    simp
  have h1L : (1 : ℤ).toNat < (MazeGenerator.initGrid width height).length := by
    unfold MazeGenerator.initGrid
    simp only [List.length_replicate]
    omega
  have h1C : (1 : ℤ).toNat <
      ((MazeGenerator.initGrid width height).getD (1 : ℤ).toNat []).length := by
    unfold MazeGenerator.initGrid
    rw [getD_replicate, if_pos (by omega)]
    simp only [List.length_replicate]
    omega
  have hpass11 : pyGet (pySet (MazeGenerator.initGrid width height) 1 1 false) 1 1 = false :=
    pyGet_pySet_same _ 1 1 false (by omega) (by omega) h1L h1C
  have hI0 : GenInv width height
      ⟨pySet (MazeGenerator.initGrid width height) 1 1 false, [(1, 1)], {(1, 1)}⟩ := by
    refine ⟨hrows0, hcols0, ?_, ?_, ?_, ?_, ?_, ?_, ?_⟩
    · intro p hp
      rw [Finset.mem_singleton] at hp
      subst hp
      exact ⟨by omega, by omega, by omega, by omega, by omega, by omega⟩
    · intro p hp
      rcases List.mem_cons.mp hp with rfl | hp
      · exact Finset.mem_singleton_self _
      · simp at hp
    · exact Finset.mem_singleton_self _
    · intro p hp
      rw [Finset.mem_singleton] at hp
      subst hp
      exact hpass11
    · intro p hp
      rw [Finset.mem_singleton] at hp
      subst hp
      exact Reach.refl _ hpass11
    · intro p hp hpn q hq
      rw [Finset.mem_singleton] at hp
      subst hp
      exact absurd (List.mem_cons_self _ _) hpn
    · intro x y hx0 hy0 hfalse
      by_cases hxy : 1 = x ∧ 1 = y
      · obtain ⟨rfl, rfl⟩ : x = 1 ∧ y = 1 := by omega
        refine ⟨by omega, by omega, by omega, by omega, Or.inl (by omega)⟩
      · have hne : (1 : ℤ) ≠ x ∨ (1 : ℤ) ≠ y := by omega
        rw [pyGet_pySet_ne _ 1 1 x y false (by omega) (by omega) hx0 hy0 hne,
          pyGet_initGrid] at hfalse
        exact Bool.noConfusion hfalse
  have h11cell : ((1 : ℤ), (1 : ℤ)) ∈ cellSet width height :=
    (mem_cellSet width height 1 1).mpr
      ⟨by omega, by omega, by omega, by omega, by omega, by omega⟩
  have hwh : 1 ≤ width * height := by
    have := Nat.mul_le_mul hw hh
    omega
  have hm0 : genMeasure width height
      ⟨pySet (MazeGenerator.initGrid width height) 1 1 false, [(1, 1)], {(1, 1)}⟩ ≤
        2 * width * height := by
    unfold genMeasure
    have hsd : cellSet width height \ {((1 : ℤ), (1 : ℤ))} =
        (cellSet width height).erase ((1 : ℤ), (1 : ℤ)) := by
      ext a
      simp only [Finset.mem_sdiff, Finset.mem_singleton, Finset.mem_erase]
      tauto
    simp only [hsd, Finset.card_erase_of_mem h11cell, card_cellSet, List.length_cons,
      List.length_nil]
    rw [Nat.mul_assoc]
    omega
  obtain ⟨st, hloop, hI, hstack⟩ :=
    genLoop_inv width height rand (2 * width * height) 0 _ hI0 hm0
  refine ⟨st, hI, hstack, ?_⟩
  simp only [MazeGenerator.generate]
  rw [hloop]

theorem visited_all (w h : ℕ) (hw : 1 ≤ w) (hh : 1 ≤ h) (V : Finset (ℤ × ℤ))
    (hstart : ((1 : ℤ), (1 : ℤ)) ∈ V)
    (hcl : ∀ p ∈ V, ∀ q, CellAdj w h p q → q ∈ V) :
    ∀ i j : ℕ, i < w → j < h → (((i : ℤ) * 2 + 1, (j : ℤ) * 2 + 1)) ∈ V := by
  have hcol : ∀ j : ℕ, j < h → (((1 : ℤ), (j : ℤ) * 2 + 1)) ∈ V := by
    intro j
    induction j with
    | zero =>
      intro _
      have heq : ((1 : ℤ), ((0 : ℕ) : ℤ) * 2 + 1) = ((1 : ℤ), (1 : ℤ)) := by
        rw [Prod.mk.injEq]
        refine ⟨rfl, by norm_num⟩
      rw [heq]
      exact hstart
    | succ j ihj =>
      intro hj
      have hprev := ihj (by omega)
      have hq := hcl _ hprev ((1 : ℤ), (j : ℤ) * 2 + 1 + 2)
        ⟨Or.inr (Or.inr (Or.inl rfl)), by omega, by omega, by omega, by omega⟩
      have heq : ((1 : ℤ), ((j + 1 : ℕ) : ℤ) * 2 + 1) = ((1 : ℤ), (j : ℤ) * 2 + 1 + 2) := by
        rw [Prod.mk.injEq]
        refine ⟨rfl, by push_cast; ring⟩
      rw [heq]
      exact hq
  intro i
  induction i with
  | zero =>
    intro j hi hj
    have heq : (((0 : ℕ) : ℤ) * 2 + 1, (j : ℤ) * 2 + 1) = ((1 : ℤ), (j : ℤ) * 2 + 1) := by
      rw [Prod.mk.injEq]
      refine ⟨by norm_num, rfl⟩
    rw [heq]
    exact hcol j hj
  | succ i ihi =>
    intro j hi hj
    have hprev := ihi j (by omega) hj
    have hq := hcl _ hprev ((i : ℤ) * 2 + 1 + 2, (j : ℤ) * 2 + 1)
      ⟨Or.inr (Or.inl rfl), by omega, by omega, by omega, by omega⟩
    have heq : (((i + 1 : ℕ) : ℤ) * 2 + 1, (j : ℤ) * 2 + 1) =
        ((i : ℤ) * 2 + 1 + 2, (j : ℤ) * 2 + 1) := by
      rw [Prod.mk.injEq]
      refine ⟨by push_cast; ring, rfl⟩
    rw [heq]
    exact hq

theorem pySet_exit_eq (g : List (List Bool)) (w h : ℕ) (hw : 1 ≤ w)
    (hrows : g.length = h * 2 + 1) (hcols : (g.getD (h * 2) []).length = w * 2 + 1)
    (b : Bool) :
    pySet g (-2) (-1) b = pySet g ((w : ℤ) * 2 - 1) ((h : ℤ) * 2) b := by
  unfold pySet
  have hy1 : pyIdx g.length (-1) = h * 2 := by
    unfold pyIdx
    rw [if_pos (by norm_num), hrows]
    omega
  have hy2 : pyIdx g.length ((h : ℤ) * 2) = h * 2 := by
    unfold pyIdx
    rw [if_neg (by omega)]
    omega
  rw [hy1, hy2]
  have hx1 : pyIdx (g.getD (h * 2) []).length (-2) = w * 2 - 1 := by
    unfold pyIdx
    rw [if_pos (by norm_num), hcols]
    omega
  have hx2 : pyIdx (g.getD (h * 2) []).length ((w : ℤ) * 2 - 1) = w * 2 - 1 := by
    unfold pyIdx
    rw [if_neg (by omega)]
    omega
  rw [hx1, hx2]

/-! ### Claim C3: the generated grid has exactly (2h+1) x (2w+1) entries -/

/-- Claim C3: for `width, height >= 1` the grid returned by
`MazeGenerator(width, height).generate()` has exactly `2*height+1` rows,
each of exactly `2*width+1` columns. -/
theorem generate_dims (width height : ℕ) (rand : ℕ → ℕ)
    (hw : 1 ≤ width) (hh : 1 ≤ height) (g : List (List Bool))
    (hg : MazeGenerator.generate width height rand = some g) :
    g.length = 2 * height + 1 ∧ ∀ row ∈ g, row.length = 2 * width + 1 := by
  obtain ⟨st, hI, hstack, hgen⟩ := generate_inv width height rand hw hh
  rw [hgen] at hg
  obtain rfl := Option.some.inj hg
  constructor
  · rw [length_pySet, length_pySet, hI.rowsLen]
    omega
  · refine forall_mem_of_forall_getD _ [] _ ?_
    intro j hj
    rw [length_pySet, length_pySet, hI.rowsLen] at hj
    rw [getD_length_pySet, getD_length_pySet, hI.colsLen j (by omega)]
    omega

/-- Instantiation of `generate_dims` at `width = height = 1`. -/
theorem generate_dims_witness :
    demoGrid.length = 2 * 1 + 1 ∧ ∀ row ∈ demoGrid, row.length = 2 * 1 + 1 :=
  generate_dims 1 1 (fun _ => 0) (by decide) (by decide) demoGrid (by decide)

/-! ### Claim C9: the backtracking loop always terminates -/

/-- Claim C9: for `width, height >= 1` the backtracking loop of
`generate()` terminates: each iteration either visits a new cell (and
there are only `width*height` cells) or pops the stack, so the measure
`2*(unvisited cells) + stack height` strictly decreases and the fuel
`2*width*height` is never exhausted; `generate` returns a grid. -/
theorem generate_terminates (width height : ℕ) (rand : ℕ → ℕ)
    (hw : 1 ≤ width) (hh : 1 ≤ height) :
    ∃ g, MazeGenerator.generate width height rand = some g := by
  obtain ⟨st, hI, hstack, hgen⟩ := generate_inv width height rand hw hh
  exact ⟨_, hgen⟩

/-- Instantiation of `generate_terminates` at `width = height = 1`. -/
theorem generate_terminates_witness :
    ∃ g, MazeGenerator.generate 1 1 (fun _ => 0) = some g :=
  generate_terminates 1 1 (fun _ => 0) (by decide) (by decide)

/-! ### Claim C4: border walls except the entrance and exit openings -/

/-- Claim C4: after `generate()` the entrance `(column 1, row 0)` and the
exit `(column 2*width-1, row 2*height)` are passable, and every other
position on the grid border is a wall. -/
theorem generate_border (width height : ℕ) (rand : ℕ → ℕ)
    (hw : 1 ≤ width) (hh : 1 ≤ height) (g : List (List Bool))
    (hg : MazeGenerator.generate width height rand = some g) :
    pyGet g 1 0 = false ∧
    pyGet g ((width : ℤ) * 2 - 1) ((height : ℤ) * 2) = false ∧
    ∀ x y : ℤ, 0 ≤ x → x < (width : ℤ) * 2 + 1 → 0 ≤ y → y < (height : ℤ) * 2 + 1 →
      (x = 0 ∨ x = (width : ℤ) * 2 ∨ y = 0 ∨ y = (height : ℤ) * 2) →
      ¬(x = 1 ∧ y = 0) → ¬(x = (width : ℤ) * 2 - 1 ∧ y = (height : ℤ) * 2) →
      pyGet g x y = true := by
  obtain ⟨st, hI, hstack, hgen⟩ := generate_inv width height rand hw hh
  rw [hgen] at hg
  obtain rfl := Option.some.inj hg
  have hrows := hI.rowsLen
  have hcols := hI.colsLen
  have hrew : pySet (pySet st.grid 1 0 false) (-2) (-1) false =
      pySet (pySet st.grid 1 0 false) ((width : ℤ) * 2 - 1) ((height : ℤ) * 2) false := by
    refine pySet_exit_eq _ width height hw ?_ ?_ false
    · rw [length_pySet, hrows]
    · rw [getD_length_pySet]
      exact hcols _ (by omega)
  rw [hrew]
  have h0L : (0 : ℤ).toNat < st.grid.length := by rw [hrows]; omega
  have h1C : (1 : ℤ).toNat < (st.grid.getD (0 : ℤ).toNat []).length := by
    rw [hcols (0 : ℤ).toNat (by omega)]
    omega
  refine ⟨?_, ?_, ?_⟩
  · rw [pyGet_pySet_ne (pySet st.grid 1 0 false) ((width : ℤ) * 2 - 1) ((height : ℤ) * 2)
      1 0 false (by omega) (by omega) (by omega) (by omega) (Or.inr (by omega))]
    exact pyGet_pySet_same st.grid 1 0 false (by omega) (by omega) h0L h1C
  · have hyL : ((height : ℤ) * 2).toNat < (pySet st.grid 1 0 false).length := by
      rw [length_pySet, hrows]
      omega
    have hxC : ((width : ℤ) * 2 - 1).toNat <
        ((pySet st.grid 1 0 false).getD ((height : ℤ) * 2).toNat []).length := by
      rw [getD_length_pySet, hcols _ (by omega)]
      omega
    exact pyGet_pySet_same _ _ _ false (by omega) (by omega) hyL hxC
  · intro x y hx0 hxW hy0 hyH hborder hne1 hne2
    rw [pyGet_pySet_ne _ _ _ x y false (by omega) (by omega) hx0 hy0 (by omega),
      pyGet_pySet_ne st.grid 1 0 x y false (by omega) (by omega) hx0 hy0 (by omega)]
    cases hv : pyGet st.grid x y with
    | true => rfl
    | false =>
      exfalso
      have hint := hI.passInt x y hx0 hy0 hv
      omega

/-- Instantiation of `generate_border` at `width = height = 1`. -/
theorem generate_border_witness :
    pyGet demoGrid 1 0 = false ∧
    pyGet demoGrid ((1 : ℤ) * 2 - 1) ((1 : ℤ) * 2) = false ∧
    ∀ x y : ℤ, 0 ≤ x → x < (1 : ℤ) * 2 + 1 → 0 ≤ y → y < (1 : ℤ) * 2 + 1 →
      (x = 0 ∨ x = (1 : ℤ) * 2 ∨ y = 0 ∨ y = (1 : ℤ) * 2) →
      ¬(x = 1 ∧ y = 0) → ¬(x = (1 : ℤ) * 2 - 1 ∧ y = (1 : ℤ) * 2) →
      pyGet demoGrid x y = true :=
  generate_border 1 1 (fun _ => 0) (by decide) (by decide) demoGrid (by decide)

/-! ### Claim C10: even-even grid positions are never carved -/

/-- Claim C10: after `generate()` every position whose two coordinates
are both even is still a wall: the loop carves only odd-odd cells and
wall slots with one odd coordinate, and the entrance and exit openings
sit in odd columns, so the corner joints are never opened. -/
theorem generate_even_walls (width height : ℕ) (rand : ℕ → ℕ)
    (hw : 1 ≤ width) (hh : 1 ≤ height) (g : List (List Bool))
    (hg : MazeGenerator.generate width height rand = some g) :
    ∀ x y : ℤ, 0 ≤ x → x < (width : ℤ) * 2 + 1 → 0 ≤ y → y < (height : ℤ) * 2 + 1 →
      x % 2 = 0 → y % 2 = 0 → pyGet g x y = true := by
  obtain ⟨st, hI, hstack, hgen⟩ := generate_inv width height rand hw hh
  rw [hgen] at hg
  obtain rfl := Option.some.inj hg
  have hrows := hI.rowsLen
  have hcols := hI.colsLen
  have hrew : pySet (pySet st.grid 1 0 false) (-2) (-1) false =
      pySet (pySet st.grid 1 0 false) ((width : ℤ) * 2 - 1) ((height : ℤ) * 2) false := by
    refine pySet_exit_eq _ width height hw ?_ ?_ false
    · rw [length_pySet, hrows]
    · rw [getD_length_pySet]
      exact hcols _ (by omega)
  rw [hrew]
  intro x y hx0 hxW hy0 hyH hx2 hy2
  rw [pyGet_pySet_ne _ _ _ x y false (by omega) (by omega) hx0 hy0 (Or.inl (by omega)),
    pyGet_pySet_ne st.grid 1 0 x y false (by omega) (by omega) hx0 hy0 (Or.inl (by omega))]
  cases hv : pyGet st.grid x y with
  | true => rfl
  | false =>
    exfalso
    have hint := hI.passInt x y hx0 hy0 hv
    omega

/-- Instantiation of `generate_even_walls` at `width = height = 1` and
the corner joint `(2, 0)`. -/
theorem generate_even_walls_witness : pyGet demoGrid 2 0 = true :=
  generate_even_walls 1 1 (fun _ => 0) (by decide) (by decide) demoGrid (by decide)
    2 0 (by decide) (by decide) (by decide) (by decide) (by decide) (by decide)

/-! ### Claim C1: every cell is passable and reachable from (1,1) -/

/-- Claim C1: for `width, height >= 1`, after `generate()` every cell at
odd coordinates `(x, y)` with `0 < x < 2*width+1` and
`0 < y < 2*height+1` is passable and reachable from `(1, 1)` by a path
of passable grid positions using single-step axis adjacency: the carved
maze spans all logical cells, so the maze is always solvable. -/
theorem generate_connected (width height : ℕ) (rand : ℕ → ℕ)
    (hw : 1 ≤ width) (hh : 1 ≤ height) (g : List (List Bool))
    (hg : MazeGenerator.generate width height rand = some g) (x y : ℤ)
    (hx2 : x % 2 = 1) (hy2 : y % 2 = 1) (hx0 : 0 < x) (hxW : x < (width : ℤ) * 2 + 1)
    (hy0 : 0 < y) (hyH : y < (height : ℤ) * 2 + 1) :
    pyGet g x y = false ∧ Reach g (1, 1) (x, y) := by
  obtain ⟨st, hI, hstack, hgen⟩ := generate_inv width height rand hw hh
  rw [hgen] at hg
  obtain rfl := Option.some.inj hg
  have hcl : ∀ p ∈ st.visited, ∀ q, CellAdj width height p q → q ∈ st.visited := by
    intro p hp q hq
    exact hI.closedOff p hp (by rw [hstack]; simp) q hq
  have hvis := visited_all width height hw hh st.visited hI.startVis hcl
  have hxx : ((x.toNat / 2 : ℕ) : ℤ) * 2 + 1 = x := by omega
  have hyy : ((y.toNat / 2 : ℕ) : ℤ) * 2 + 1 = y := by omega
  have hmem : (x, y) ∈ st.visited := by
    have hm := hvis (x.toNat / 2) (y.toNat / 2) (by omega) (by omega)
    rw [hxx, hyy] at hm
    exact hm
  have hmono : ∀ a b : ℤ, pyGet st.grid a b = false →
      pyGet (pySet (pySet st.grid 1 0 false) (-2) (-1) false) a b = false :=
    fun a b hab => pyGet_pySet_false _ _ _ _ _ (pyGet_pySet_false _ _ _ _ _ hab)
  exact ⟨hmono _ _ (hI.visPass _ hmem), Reach_mono _ _ hmono _ _ (hI.visReach _ hmem)⟩

/-- Instantiation of `generate_connected` at `width = height = 1` and the
single cell `(1, 1)`. -/
theorem generate_connected_witness :
    pyGet demoGrid 1 1 = false ∧ Reach demoGrid (1, 1) (1, 1) :=
  generate_connected 1 1 (fun _ => 0) (by decide) (by decide) demoGrid (by decide)
    1 1 (by decide) (by decide) (by decide) (by decide) (by decide) (by decide)
